import Mathlib

/-!
Verification of the SunFlux space-weather cache against its specification.

The development shallowly embeds the cache-related parts of the repository:
the merge/dedup/trim step of SSN.read_url, the staleness test SSN.is_expired,
the pickle-backed cache store (SSN.read_cache, KPIForecast.readcache),
the CSV field normalizer SSN.convert, the JSON record normalizer
KPIForecast.download, the window filter in KPIForecast.graph, and the
refresh control flow of KPIForecast.__init__ and sunfluxbot.get_alert.
-/

namespace SunFlux

open scoped List

/-! ### Records of the SSN feed and the merge engine (ssngraph.py)

SSN.read_url accumulates freshly fetched rows after the cached rows
(`data = current_data; data.append(...)`), deduplicates with the dict
comprehension `_data = \x7bv[0]: v for v in data\x7d` (the last record with a
given key wins, keys keep first-insertion order), and finally returns
`sorted(_data.values())[-90:]`.  A record is modeled as a pair of its
dedup key (the first tuple component, the date) and its measurement. -/

/-- Record of the SSN feed: dedup key (date, encoded as a natural number)
paired with its measurement, mirroring the tuples built by SSN.convert. -/
abbrev Rec := Nat × Int

/-- Order in which Python's sorted() compares the record tuples:
lexicographic on (key, measurement). -/
def recLe (a b : Rec) : Prop := a.1 < b.1 ∨ (a.1 = b.1 ∧ a.2 ≤ b.2)

instance : DecidableRel recLe := fun a b => by unfold recLe; exact inferInstance

instance : IsTrans Rec recLe where
  trans a b c hab hbc := by
    rcases hab with h | ⟨h1, h2⟩ <;> rcases hbc with h' | ⟨h1', h2'⟩ <;>
      [exact Or.inl (Nat.lt_trans h h');
       exact Or.inl (h1' ▸ h);
       exact Or.inl (h1 ▸ h');
       exact Or.inr ⟨h1.trans h1', le_trans h2 h2'⟩]

instance : IsTotal Rec recLe where
  total a b := by
    rcases Nat.lt_trichotomy a.1 b.1 with h | h | h
    · exact Or.inl (Or.inl h)
    · rcases le_total a.2 b.2 with h2 | h2
      · exact Or.inl (Or.inr ⟨h, h2⟩)
      · exact Or.inr (Or.inr ⟨h.symm, h2⟩)
    · exact Or.inr (Or.inl h)

instance : IsAntisymm Rec recLe where
  antisymm a b hab hba := by
    rcases hab with h | ⟨h1, h2⟩ <;> rcases hba with h' | ⟨h1', h2'⟩ <;>
      first
      | exact absurd h (by omega)
      | exact absurd h' (by omega)
      | exact Prod.ext h1 (le_antisymm h2 h2')

/-- Distinct dedup keys, the invariant a Python dict maintains. -/
abbrev keyNe (a b : Rec) : Prop := a.1 ≠ b.1

/-- One assignment `d[r.1] = r` into an insertion-ordered dict: an existing
key keeps its position and receives the new value, a fresh key is appended. -/
def dictInsert : List Rec → Rec → List Rec
  | [], r => [r]
  | x :: xs, r => if x.1 = r.1 then r :: xs else x :: dictInsert xs r

/-- The dict comprehension of SSN.read_url: fold every record into an
initially empty insertion-ordered dict; models both the mapping and the
order in which .values() is produced. -/
def dictOfList (l : List Rec) : List Rec := l.foldl dictInsert []

/-- Value of the last record carrying key k, i.e. the value the dict
comprehension ends up storing under k. -/
def lastLookup : List Rec → Nat → Option Int
  | [], _ => none
  | x :: xs, k =>
    match lastLookup xs k with
    | some v => some v
    | none => if x.1 = k then some x.2 else none

/-- Python's l[-n:]: the last n elements of a list. -/
def takeLast (n : Nat) (l : List α) : List α := l.drop (l.length - n)

/-- Python's sorted() on the record tuples: a stable sort by the
lexicographic tuple order (insertion sort is stable, and recLe is total and
antisymmetric, so any sorting algorithm produces this same list). -/
def sortRecs (l : List Rec) : List Rec := l.insertionSort recLe

/-- The merge/dedup/trim portion of SSN.read_url (lines 49-54): append the
incoming batch after the cached data, dedup by key with the incoming side
winning, sort ascending, keep the most recent 90 entries. -/
def merge (cached incoming : List Rec) : List Rec :=
  takeLast 90 (sortRecs (dictOfList (cached ++ incoming)))

/-- Canonical Sequence invariant of the spec: strictly ascending dedup keys
(hence sorted and duplicate-free) and length within the retention bound 90
used by SSN.read_url. -/
def Canonical (l : List Rec) : Prop :=
  l.Pairwise (fun a b => a.1 < b.1) ∧ l.length ≤ 90

/-! ### Dict lemmas -/

theorem dictInsert_of_forall_keyNe {l : List Rec} {r : Rec}
    (h : ∀ x ∈ l, x.1 ≠ r.1) : dictInsert l r = l ++ [r] := by
  induction l with
  | nil => rfl
  | cons a t ih =>
    have ha : a.1 ≠ r.1 := h a (List.mem_cons_self a t)
    simp only [dictInsert, if_neg ha, List.cons_append, List.cons.injEq, true_and]
    exact ih fun x hx => h x (List.mem_cons_of_mem a hx)

theorem mem_dictInsert_sub {l : List Rec} {r x : Rec}
    (h : x ∈ dictInsert l r) : x = r ∨ x ∈ l := by
  induction l with
  | nil => simpa [dictInsert] using h
  | cons a t ih =>
    by_cases ha : a.1 = r.1
    · simp only [dictInsert, if_pos ha, List.mem_cons] at h
      rcases h with h | h
      · exact Or.inl h
      · exact Or.inr (List.mem_cons_of_mem a h)
    · simp only [dictInsert, if_neg ha, List.mem_cons] at h
      rcases h with h | h
      · exact Or.inr (h ▸ List.mem_cons_self a t)
      · rcases ih h with h | h
        · exact Or.inl h
        · exact Or.inr (List.mem_cons_of_mem a h)

theorem dictInsert_pairwise {l : List Rec} {r : Rec}
    (h : l.Pairwise keyNe) : (dictInsert l r).Pairwise keyNe := by
  induction l with
  | nil => simp [dictInsert, keyNe]
  | cons a t ih =>
    rcases List.pairwise_cons.mp h with ⟨ha, ht⟩
    by_cases hk : a.1 = r.1
    · simp only [dictInsert, if_pos hk]
      exact List.pairwise_cons.mpr
        ⟨fun y hy => fun he => ha y hy (hk.trans he), ht⟩
    · simp only [dictInsert, if_neg hk]
      refine List.pairwise_cons.mpr ⟨fun y hy => ?_, ih ht⟩
      rcases mem_dictInsert_sub hy with h' | h'
      · exact fun he => hk (h' ▸ he)
      · exact ha y h'

theorem mem_dictInsert {l : List Rec} {r x : Rec} (h : l.Pairwise keyNe) :
    x ∈ dictInsert l r ↔ x = r ∨ (x ∈ l ∧ x.1 ≠ r.1) := by
  induction l with
  | nil => simp [dictInsert]
  | cons a t ih =>
    rcases List.pairwise_cons.mp h with ⟨ha, ht⟩
    by_cases hk : a.1 = r.1
    · simp only [dictInsert, if_pos hk, List.mem_cons]
      constructor
      · rintro (h' | h')
        · exact Or.inl h'
        · exact Or.inr ⟨Or.inr h', fun he => ha x h' (hk.trans he.symm)⟩
      · rintro (h' | ⟨rfl | h'', hne⟩)
        · exact Or.inl h'
        · exact absurd hk hne
        · exact Or.inr h''
    · simp only [dictInsert, if_neg hk, List.mem_cons, ih ht]
      constructor
      · rintro (rfl | h' | ⟨h', hne⟩)
        · exact Or.inr ⟨Or.inl rfl, hk⟩
        · exact Or.inl h'
        · exact Or.inr ⟨Or.inr h', hne⟩
      · rintro (h' | ⟨rfl | h', hne⟩)
        · exact Or.inr (Or.inl h')
        · exact Or.inl rfl
        · exact Or.inr (Or.inr ⟨h', hne⟩)

theorem foldl_dictInsert_pairwise (l : List Rec) :
    ∀ acc : List Rec, acc.Pairwise keyNe →
      (l.foldl dictInsert acc).Pairwise keyNe := by
  induction l with
  | nil => exact fun acc h => h
  | cons r t ih =>
    intro acc hacc
    exact ih (dictInsert acc r) (dictInsert_pairwise hacc)

theorem dictOfList_pairwise (l : List Rec) : (dictOfList l).Pairwise keyNe :=
  foldl_dictInsert_pairwise l [] List.Pairwise.nil

theorem mem_foldl_dictInsert (l : List Rec) :
    ∀ acc : List Rec, acc.Pairwise keyNe → ∀ x : Rec,
      (x ∈ l.foldl dictInsert acc ↔
        lastLookup l x.1 = some x.2 ∨ (lastLookup l x.1 = none ∧ x ∈ acc)) := by
  induction l with
  | nil => intro acc _ x; simp [lastLookup]
  | cons r t ih =>
    intro acc hacc x
    have hacc' := dictInsert_pairwise (r := r) hacc
    have hmem := mem_dictInsert (r := r) (x := x) hacc
    rw [List.foldl_cons, ih (dictInsert acc r) hacc' x, hmem]
    cases hT : lastLookup t x.1 with
    | some v =>
      simp only [lastLookup, hT]
      constructor
      · rintro (h | ⟨h, -⟩)
        · exact Or.inl h
        · cases h
      · rintro (h | ⟨h, -⟩)
        · exact Or.inl h
        · cases h
    | none =>
      simp only [lastLookup, hT]
      by_cases hk : r.1 = x.1
      · simp only [if_pos hk]
        constructor
        · rintro (h | ⟨-, h | ⟨-, hne⟩⟩)
          · cases h
          · exact Or.inl (by rw [h])
          · exact absurd hk.symm hne
        · rintro (h | ⟨h, -⟩)
          · have h2 : r.2 = x.2 := Option.some.inj h
            exact Or.inr ⟨trivial, Or.inl (Prod.ext hk h2).symm⟩
          · cases h
      · simp only [if_neg hk]
        constructor
        · rintro (h | ⟨-, h | ⟨h, -⟩⟩)
          · cases h
          · exact absurd (congrArg Prod.fst h.symm) hk
          · exact Or.inr ⟨trivial, h⟩
        · rintro (h | ⟨-, h⟩)
          · cases h
          · exact Or.inr ⟨trivial, Or.inr ⟨h, fun he => hk he.symm⟩⟩

theorem mem_dictOfList {l : List Rec} {x : Rec} :
    x ∈ dictOfList l ↔ lastLookup l x.1 = some x.2 := by
  have := mem_foldl_dictInsert l [] List.Pairwise.nil x
  simpa [dictOfList] using this

theorem lastLookup_append (l₁ l₂ : List Rec) (k : Nat) :
    lastLookup (l₁ ++ l₂) k =
      match lastLookup l₂ k with
      | some v => some v
      | none => lastLookup l₁ k := by
  induction l₁ with
  | nil => simp only [List.nil_append, lastLookup]; cases lastLookup l₂ k <;> rfl
  | cons a t ih =>
    simp only [List.cons_append, lastLookup, List.append_eq, ih]
    cases lastLookup l₂ k <;> cases lastLookup t k <;> rfl

theorem lastLookup_eq_none {l : List Rec} {k : Nat}
    (h : ∀ x ∈ l, x.1 ≠ k) : lastLookup l k = none := by
  induction l with
  | nil => rfl
  | cons a t ih =>
    have ht : lastLookup t k = none := ih fun x hx => h x (List.mem_cons_of_mem a hx)
    simp [lastLookup, ht, h a (List.mem_cons_self a t)]

theorem lastLookup_of_pairwise_mem {l : List Rec} (h : l.Pairwise keyNe)
    {r : Rec} (hm : r ∈ l) : lastLookup l r.1 = some r.2 := by
  induction l with
  | nil => cases hm
  | cons a t ih =>
    rcases List.pairwise_cons.mp h with ⟨ha, ht⟩
    rcases List.mem_cons.mp hm with rfl | hm'
    · have : lastLookup t r.1 = none := lastLookup_eq_none fun x hx => (ha x hx).symm
      simp [lastLookup, this]
    · simp [lastLookup, ih ht hm']

theorem lastLookup_mem {l : List Rec} {k : Nat} {v : Int}
    (h : lastLookup l k = some v) : (k, v) ∈ l := by
  induction l with
  | nil => cases h
  | cons a t ih =>
    simp only [lastLookup] at h
    cases hT : lastLookup t k with
    | some w =>
      rw [hT] at h
      exact List.mem_cons_of_mem a (ih (hT.trans h))
    | none =>
      rw [hT] at h
      by_cases hk : a.1 = k
      · rw [if_pos hk] at h
        have hv : a.2 = v := by simpa using h
        have : (k, v) = a := by rw [← hk, ← hv]
        exact this ▸ List.mem_cons_self a t
      · rw [if_neg hk] at h
        cases h

/-! ### Sorting lemmas -/

theorem sortRecs_sorted (l : List Rec) : (sortRecs l).Sorted recLe :=
  List.sorted_insertionSort recLe l

theorem sortRecs_perm (l : List Rec) : sortRecs l ~ l :=
  List.perm_insertionSort recLe l

theorem keyNe_symm : ∀ {x y : Rec}, keyNe x y → keyNe y x :=
  fun h => fun he => h he.symm

/-- Sorted output of the deduplicated values of l. -/
def sortedDict (l : List Rec) : List Rec := sortRecs (dictOfList l)

theorem sortedDict_sorted (l : List Rec) : (sortedDict l).Sorted recLe :=
  sortRecs_sorted _

theorem sortedDict_pairwise (l : List Rec) : (sortedDict l).Pairwise keyNe :=
  (dictOfList_pairwise l).perm (sortRecs_perm _).symm keyNe_symm

theorem mem_sortedDict {l : List Rec} {x : Rec} :
    x ∈ sortedDict l ↔ lastLookup l x.1 = some x.2 := by
  rw [sortedDict, (sortRecs_perm _).mem_iff, mem_dictOfList]

theorem pairwise_keyNe_nodup {l : List Rec} (h : l.Pairwise keyNe) : l.Nodup :=
  h.imp fun hk => fun he => hk (he ▸ rfl)

theorem merge_def (cached incoming : List Rec) :
    merge cached incoming = takeLast 90 (sortedDict (cached ++ incoming)) := rfl

theorem strict_pairwise_recLe {l : List Rec}
    (h : l.Pairwise fun a b => a.1 < b.1) : l.Sorted recLe :=
  h.imp fun h' => Or.inl h'

theorem strict_pairwise_keyNe {l : List Rec}
    (h : l.Pairwise fun a b => a.1 < b.1) : l.Pairwise keyNe :=
  h.imp fun h' => Nat.ne_of_lt h'

theorem foldl_dictInsert_eq_append {l : List Rec} :
    ∀ acc : List Rec, (acc ++ l).Pairwise keyNe →
      l.foldl dictInsert acc = acc ++ l := by
  induction l with
  | nil => intro acc _; simp
  | cons r t ih =>
    intro acc h
    have hins : dictInsert acc r = acc ++ [r] := by
      apply dictInsert_of_forall_keyNe
      intro x hx
      exact (List.pairwise_append.mp h).2.2 x hx r (List.mem_cons_self r t)
    have h' : ((acc ++ [r]) ++ t).Pairwise keyNe := by simpa using h
    rw [List.foldl_cons, hins, ih (acc ++ [r]) h']
    simp

theorem dictOfList_eq_self {l : List Rec} (h : l.Pairwise keyNe) :
    dictOfList l = l :=
  foldl_dictInsert_eq_append [] (by simpa using h)

theorem sortRecs_eq_self {l : List Rec} (h : l.Sorted recLe) : sortRecs l = l :=
  List.eq_of_perm_of_sorted (sortRecs_perm l) (sortRecs_sorted l) h

theorem mem_iff_lastLookup_of_pairwise {Z : List Rec} (hp : Z.Pairwise keyNe)
    {x : Rec} : x ∈ Z ↔ lastLookup Z x.1 = some x.2 :=
  ⟨lastLookup_of_pairwise_mem hp, fun h => by
    have := lastLookup_mem h
    rwa [Prod.mk.eta] at this⟩

/-- Replaying the same incoming batch is a no-op: the dedup map already
holds exactly the values the batch would write, and the entries trimmed by
the retention bound sort strictly below the survivors, so they are trimmed
again. -/
theorem merge_fixpoint (X Y : List Rec) :
    merge (merge X Y) Y = merge X Y := by
  simp only [merge_def]
  set S : List Rec := sortedDict (X ++ Y) with hSdef
  have hSsorted : S.Sorted recLe := sortedDict_sorted _
  have hSpair : S.Pairwise keyNe := sortedDict_pairwise _
  set Z : List Rec := takeLast 90 S with hZdef
  have hZsub : Z.Sublist S := by rw [hZdef, takeLast]; exact List.drop_sublist _ _
  have hZpair : Z.Pairwise keyNe := List.Pairwise.sublist hZsub hSpair
  have hZsorted : Z.Sorted recLe := List.Pairwise.sublist hZsub hSsorted
  have hZnodup : Z.Nodup := pairwise_keyNe_nodup hZpair
  set T : List Rec := sortedDict (Z ++ Y) with hTdef
  have hTsorted : T.Sorted recLe := sortedDict_sorted _
  have hTpair : T.Pairwise keyNe := sortedDict_pairwise _
  have hTnodup : T.Nodup := pairwise_keyNe_nodup hTpair
  have hZS : ∀ x ∈ Z, x ∈ S := fun x hx => hZsub.subset hx
  have hZT : ∀ x ∈ Z, x ∈ T := by
    intro x hx
    rw [hTdef, mem_sortedDict, lastLookup_append]
    cases hY : lastLookup Y x.1 with
    | some v =>
      have hxS : lastLookup (X ++ Y) x.1 = some x.2 := by
        have hm := hZS x hx
        rw [hSdef] at hm
        exact mem_sortedDict.mp hm
      rw [lastLookup_append, hY] at hxS
      exact hxS
    | none =>
      exact lastLookup_of_pairwise_mem hZpair hx
  have hTS : ∀ x ∈ T, x ∈ S := by
    intro x hx
    rw [hTdef, mem_sortedDict, lastLookup_append] at hx
    rw [hSdef, mem_sortedDict, lastLookup_append]
    cases hY : lastLookup Y x.1 with
    | some v =>
      rw [hY] at hx
      exact hx
    | none =>
      rw [hY] at hx
      have hxZ : x ∈ Z := (mem_iff_lastLookup_of_pairwise hZpair).mpr hx
      have hxS : x ∈ S := hZS x hxZ
      rw [hSdef, mem_sortedDict, lastLookup_append, hY] at hxS
      exact hxS
  set D : List Rec := S.take (S.length - 90) with hDdef
  have hDZ : D ++ Z = S := by
    rw [hDdef, hZdef, takeLast]; exact List.take_append_drop _ _
  have hsortedDZ : (D ++ Z).Sorted recLe := by rw [hDZ]; exact hSsorted
  have hcross : ∀ d ∈ D, ∀ z ∈ Z, recLe d z :=
    fun d hd z hz => (List.pairwise_append.mp hsortedDZ).2.2 d hd z hz
  set U : List Rec := T.filter (fun x => !decide (x ∈ Z)) with hUdef
  have hUsub : U.Sublist T := List.filter_sublist _
  have hUsorted : U.Sorted recLe := List.Pairwise.sublist hUsub hTsorted
  have hUmem : ∀ u ∈ U, u ∈ D := by
    intro u hu
    rw [hUdef, List.mem_filter] at hu
    have hunotZ : u ∉ Z := by simpa using hu.2
    have huS : u ∈ S := hTS u hu.1
    rw [← hDZ] at huS
    rcases List.mem_append.mp huS with h | h
    · exact h
    · exact absurd h hunotZ
  have hperm : T ~ U ++ Z := by
    have h1 : T.filter (fun x => decide (x ∈ Z)) ++ U ~ T := by
      rw [hUdef]
      exact List.filter_append_perm (fun x => decide (x ∈ Z)) T
    have h2 : T.filter (fun x => decide (x ∈ Z)) ~ Z := by
      apply (List.perm_ext_iff_of_nodup (List.Nodup.filter _ hTnodup) hZnodup).mpr
      intro a
      simp only [List.mem_filter, decide_eq_true_eq]
      exact ⟨fun h => h.2, fun h => ⟨hZT a h, h⟩⟩
    calc T ~ T.filter (fun x => decide (x ∈ Z)) ++ U := h1.symm
      _ ~ Z ++ U := h2.append_right U
      _ ~ U ++ Z := List.perm_append_comm
  have hUZsorted : (U ++ Z).Sorted recLe :=
    List.pairwise_append.mpr
      ⟨hUsorted, hZsorted, fun d hd z hz => hcross d (hUmem d hd) z hz⟩
  have hTeq : T = U ++ Z := List.eq_of_perm_of_sorted hperm hTsorted hUZsorted
  rw [hTeq]
  by_cases hlen : S.length ≤ 90
  · have hUnil : U = [] := by
      apply List.eq_nil_iff_forall_not_mem.mpr
      intro u hu
      have hd := hUmem u hu
      have hDnil : D = [] := by
        rw [hDdef, Nat.sub_eq_zero_of_le hlen, List.take_zero]
      rw [hDnil] at hd
      exact absurd hd (List.not_mem_nil u)
    have hZeqS : Z = S := by
      rw [hZdef, takeLast, Nat.sub_eq_zero_of_le hlen, List.drop_zero]
    rw [hUnil, List.nil_append, hZeqS, takeLast,
        Nat.sub_eq_zero_of_le hlen, List.drop_zero]
  · have hZlen : Z.length = 90 := by
      rw [hZdef, takeLast, List.length_drop]; omega
    rw [takeLast, List.length_append, hZlen]
    have harith : U.length + 90 - 90 = U.length := by omega
    rw [harith]
    exact List.drop_left U Z

/-- C1: merging a cache holding minutes 0, 15, 30 (value 3 each) with an
incoming batch holding minute 15 (value 5) and minute 45 (value 4) yields
exactly [(0,3), (15,5), (30,3), (45,4)]: the minute-15 duplicate resolves
to the incoming value and the result is sorted ascending by timestamp. -/
theorem merge_scenario :
    merge [(0, 3), (15, 3), (30, 3)] [(15, 5), (45, 4)]
      = [(0, 3), (15, 5), (30, 3), (45, 4)] := by decide

/-- C2: merging any Canonical Sequence with an empty incoming batch returns
it unchanged. -/
theorem merge_cached_nil (X : List Rec) (h : Canonical X) : merge X [] = X := by
  obtain ⟨hs, hlen⟩ := h
  rw [merge, List.append_nil, dictOfList_eq_self (strict_pairwise_keyNe hs),
      sortRecs_eq_self (strict_pairwise_recLe hs), takeLast,
      Nat.sub_eq_zero_of_le hlen, List.drop_zero]

/-- Witness for C2 at the concrete canonical sequence [(0,3), (15,5)]. -/
theorem merge_cached_nil_witness :
    Canonical [((0 : Nat), (3 : Int)), (15, 5)] ∧
      merge [(0, 3), (15, 5)] [] = [(0, 3), (15, 5)] :=
  ⟨⟨by decide, by decide⟩, merge_cached_nil _ ⟨by decide, by decide⟩⟩

/-- C3: merging is idempotent under replay of the same incoming batch. -/
theorem merge_replay_idem (X Y : List Rec) (_h : Canonical X) :
    merge (merge X Y) Y = merge X Y :=
  merge_fixpoint X Y

/-- Witness for C3 at the concrete canonical cache of the C1 scenario and
its incoming batch. -/
theorem merge_replay_idem_witness :
    Canonical [((0 : Nat), (3 : Int)), (15, 3), (30, 3)] ∧
      merge (merge [(0, 3), (15, 3), (30, 3)] [(15, 5), (45, 4)]) [(15, 5), (45, 4)]
        = merge [(0, 3), (15, 3), (30, 3)] [(15, 5), (45, 4)] :=
  ⟨⟨by decide, by decide⟩, merge_replay_idem _ _ ⟨by decide, by decide⟩⟩

/-! ### Staleness policy (SSN.is_expired, ssngraph.py lines 82-91)

The os.stat call is modeled by an optional st_mtime (none models a raised
FileNotFoundError) and time.time() by the explicit now argument;
timestamps and the time-to-live are integers. -/

/-- SSN.is_expired: stale when the stat raises FileNotFoundError, or when
now - st_mtime exceeds cache_time; fresh otherwise. -/
def is_expired (mtime : Option Int) (cache_time now : Int) : Bool :=
  match mtime with
  | none => true
  | some m => decide (now - m > cache_time)

/-- C4: the staleness check returns true exactly when the cache file does
not exist or now - last_modified > ttl, and false exactly when
now - last_modified <= ttl (so negative elapsed time from clock skew is
not stale); it is a pure total function. -/
theorem is_expired_spec (mtime : Option Int) (ttl now : Int) :
    (is_expired mtime ttl now = true ↔
      mtime = none ∨ ∃ m, mtime = some m ∧ now - m > ttl) ∧
    (∀ m : Int, (is_expired (some m) ttl now = false ↔ now - m ≤ ttl)) := by
  constructor
  · cases mtime with
    | none => simp [is_expired]
    | some m => simp [is_expired]
  · intro m
    simp [is_expired]

/-- Witness for C4: a 10-second-old file with a 5-second ttl is stale. -/
theorem is_expired_spec_witness :
    (is_expired (some 0) 5 10 = true ↔
      (some (0 : Int) = none ∨ ∃ m, some (0 : Int) = some m ∧ (10 : Int) - m > 5)) ∧
    (is_expired (some 8) 5 10 = false ↔ (10 : Int) - 8 ≤ 5) :=
  ⟨(is_expired_spec (some 0) 5 10).1, (is_expired_spec (some 8) 5 10).2 8⟩

/-! ### Persistent cache store (SSN.read_cache, ssngraph.py lines 69-75)

The cache file is modeled as an optional byte content (none models the
open() call raising FileNotFoundError); pickle.load raises EOFError on a
zero-length file, UnpicklingError on undecodable bytes, and returns the
stored value otherwise. -/

inductive PyErr where
  | fileNotFoundError
  | eofError
  | unpicklingError
  | valueError
  | typeError
  | indexError
  deriving DecidableEq

/-- Byte content of a pickle cache file. -/
inductive PickleBytes (α : Type) where
  | emptyBytes : PickleBytes α
  | corruptBytes : PickleBytes α
  | pickled : α → PickleBytes α
  deriving DecidableEq

/-- pickle.load on the bytes of an open file. -/
def pickleLoad (b : PickleBytes α) : Except PyErr α :=
  match b with
  | .emptyBytes => .error .eofError
  | .corruptBytes => .error .unpicklingError
  | .pickled v => .ok v

/-- SSN.read_cache: open and unpickle the cache file; the except clause
catches only FileNotFoundError and EOFError, returning the empty list. -/
def read_cache (file : Option (PickleBytes (List Rec))) :
    Except PyErr (List Rec) :=
  match file with
  | none => .ok []
  | some b =>
    match pickleLoad b with
    | .ok v => .ok v
    | .error .eofError => .ok []
    | .error e => .error e

/-- C5 counterexample: a present but corrupt cache file makes read_cache
propagate UnpicklingError to the caller instead of returning an empty
sequence. -/
theorem read_cache_corrupt_raises :
    read_cache (some PickleBytes.corruptBytes) = .error .unpicklingError := rfl

/-- C5 (amended): read_cache fails soft only for an absent or empty file
(and round-trips a valid pickle); a deserialization failure other than
end-of-file, such as corrupt bytes, propagates as UnpicklingError. -/
theorem read_cache_spec :
    read_cache none = .ok [] ∧
    read_cache (some .emptyBytes) = .ok [] ∧
    (∀ v : List Rec, read_cache (some (.pickled v)) = .ok v) ∧
    read_cache (some .corruptBytes) = .error .unpicklingError :=
  ⟨rfl, rfl, fun _ => rfl, rfl⟩

/-! ### CSV field normalization (SSN.convert, ssngraph.py lines 56-67) -/

/-- Python str.strip: drop whitespace from both ends. -/
def pstrip (s : String) : String :=
  ⟨((s.data.dropWhile Char.isWhitespace).reverse.dropWhile
      Char.isWhitespace).reverse⟩

/-- Python str.isdecimal, restricted to the ASCII digits the SIDC feed
emits: nonempty and every character a decimal digit. -/
def pyIsDecimal (s : String) : Bool :=
  !s.data.isEmpty && s.data.all Char.isDigit

/-- Numeric value of a string of decimal digits, as Python int() reads it. -/
def digitsVal (ds : List Char) : Nat :=
  ds.foldl (fun n c => 10 * n + (c.toNat - 48)) 0

/-- Value produced by SSN.convert for one field: a Python int or float.
The float is carried as the exact rational the literal denotes; rounding
to machine floats plays no role in the claims checked here. -/
inductive PyVal where
  | vint : Int → PyVal
  | vfloat : ℚ → PyVal
  deriving DecidableEq

/-- Exponent digits of a float literal: at least one digit and nothing
after them; scales the mantissa up or down. -/
def parseExpDigits (base : ℚ) (pos : Bool) (r : List Char) : Option ℚ :=
  let ds := r.takeWhile Char.isDigit
  let rest := r.dropWhile Char.isDigit
  if ds.isEmpty || !rest.isEmpty then none
  else some (if pos then base * 10 ^ digitsVal ds else base / 10 ^ digitsVal ds)

/-- Optional exponent suffix of a float literal: empty, or e/E with an
optional sign and digits. -/
def parseExpPart (base : ℚ) : List Char → Option ℚ
  | [] => some base
  | c :: r =>
    if c = 'e' ∨ c = 'E' then
      match r with
      | '+' :: r2 => parseExpDigits base true r2
      | '-' :: r2 => parseExpDigits base false r2
      | r2 => parseExpDigits base true r2
    else none

/-- Unsigned float literal: digits with an optional decimal point (at
least one digit overall) followed by an optional exponent. -/
def parseFloatBody (s : List Char) : Option ℚ :=
  let ip := s.takeWhile Char.isDigit
  let r1 := s.dropWhile Char.isDigit
  match r1 with
  | '.' :: r2 =>
    let fp := r2.takeWhile Char.isDigit
    let r3 := r2.dropWhile Char.isDigit
    if ip.isEmpty && fp.isEmpty then none
    else parseExpPart ((digitsVal ip : ℚ) + (digitsVal fp : ℚ) / 10 ^ fp.length) r3
  | r => if ip.isEmpty then none else parseExpPart (digitsVal ip : ℚ) r

/-- Python float() on an already-stripped string: optional sign then a
float literal, ValueError otherwise.  Digit-separator underscores and the
inf/nan spellings are not modeled: SSN.convert only applies float() to
fields containing a dot, which those spellings never do. -/
def pyFloat (s : String) : Except PyErr ℚ :=
  match s.data with
  | '+' :: r =>
    match parseFloatBody r with
    | some q => .ok q
    | none => .error .valueError
  | '-' :: r =>
    match parseFloatBody r with
    | some q => .ok (-q)
    | none => .error .valueError
  | r =>
    match parseFloatBody r with
    | some q => .ok q
    | none => .error .valueError

/-- One field of SSN.convert: strip, then int() for all-decimal fields,
float() for fields containing a dot (which can raise ValueError), and the
constant 0 otherwise. -/
def convertField (field : String) : Except PyErr PyVal :=
  let f := pstrip field
  if pyIsDecimal f then .ok (.vint (digitsVal f.data))
  else if f.data.contains '.' then (pyFloat f).map PyVal.vfloat
  else .ok (.vint 0)

/-- The field loop of SSN.convert: convert each raw field in order,
aborting on the first uncaught exception. -/
def convertFields : List String → Except PyErr (List PyVal)
  | [] => .ok []
  | f :: t =>
    match convertField f with
    | .error e => .error e
    | .ok v =>
      match convertFields t with
      | .error e => .error e
      | .ok vs => .ok (v :: vs)

/-- Leap-year rule of the Gregorian calendar, as datetime.date applies it. -/
def isLeap (y : Nat) : Bool := y % 4 == 0 && (y % 100 != 0 || y % 400 == 0)

/-- Days in a month, as datetime.date and datetime.strptime validate it. -/
def daysInMonth (y m : Nat) : Nat :=
  if m = 2 then (if isLeap y then 29 else 28)
  else if m = 4 ∨ m = 6 ∨ m = 9 ∨ m = 11 then 30 else 31

/-- datetime.date(*ftmp[:3]): requires three integer arguments (a float
raises TypeError, as does a short row) with year, month and day in range
(otherwise ValueError). -/
def mkDate (vals : List PyVal) : Except PyErr (Nat × Nat × Nat) :=
  match vals with
  | [.vint y, .vint m, .vint d] =>
    if 1 ≤ y ∧ y ≤ 9999 ∧ 1 ≤ m ∧ m ≤ 12 ∧ 1 ≤ d ∧
        d ≤ (daysInMonth y.toNat m.toNat : Int)
    then .ok (y.toNat, m.toNat, d.toNat)
    else .error .valueError
  | _ => .error .typeError

/-- Record built by SSN.convert: the date from the first three fields and
the remaining measurement fields. -/
structure SSNRec where
  date : Nat × Nat × Nat
  fields : List PyVal
  deriving DecidableEq

/-- SSN.convert: convert every field, then build the record
(date(*ftmp[:3]), *ftmp[3:]). -/
def convert (fields : List String) : Except PyErr SSNRec :=
  match convertFields fields with
  | .error e => .error e
  | .ok ftmp =>
    match mkDate (ftmp.take 3) with
    | .error e => .error e
    | .ok d => .ok ⟨d, ftmp.drop 3⟩

/-- C8 counterexample: the field ".", neither all-decimal nor dot-free,
makes conversion raise ValueError instead of normalizing to zero. -/
theorem convertField_dot_raises :
    convertField "." = .error .valueError := rfl

/-- C8 (amended): an all-decimal field converts to its integer value; a
dot-containing field is handed to float(), which yields its floating value
for valid literals and raises ValueError otherwise; a dot-free non-decimal
field (blank included) normalizes to the integer 0; the scenario row
["2024", "03", "01", "120", "7", "abc"] yields a record whose trailing
field is the integer 0. -/
theorem convertField_spec :
    (∀ f : String, pyIsDecimal (pstrip f) = true →
      convertField f = .ok (.vint (digitsVal (pstrip f).data))) ∧
    (∀ f : String, pyIsDecimal (pstrip f) = false →
      (pstrip f).data.contains '.' = true →
      convertField f = (pyFloat (pstrip f)).map PyVal.vfloat) ∧
    (∀ f : String, pyIsDecimal (pstrip f) = false →
      (pstrip f).data.contains '.' = false →
      convertField f = .ok (.vint 0)) ∧
    convert ["2024", "03", "01", "120", "7", "abc"]
      = .ok ⟨(2024, 3, 1), [.vint 120, .vint 7, .vint 0]⟩ := by
  refine ⟨?_, ?_, ?_, ?_⟩
  · intro f h
    simp [convertField, h]
  · intro f h h2
    have h2' : '.' ∈ (pstrip f).data := by simpa using h2
    simp [convertField, h, h2']
  · intro f h h2
    have h2' : '.' ∉ (pstrip f).data := by simpa using h2
    simp [convertField, h, h2']
  · rfl

/-- Witness for C8 at concrete fields of each kind. -/
theorem convertField_spec_witness :
    convertField "120" = .ok (.vint (digitsVal (pstrip "120").data)) ∧
    convertField "1.5" = (pyFloat (pstrip "1.5")).map PyVal.vfloat ∧
    convertField "abc" = .ok (.vint 0) :=
  ⟨convertField_spec.1 "120" rfl, convertField_spec.2.1 "1.5" rfl rfl,
    convertField_spec.2.2.1 "abc" rfl rfl⟩

/-- C10: CSV field conversion is not total: "1.2.3" contains a decimal
point but is not a float literal, so conversion raises ValueError, and a
single such field aborts conversion of the whole row. -/
theorem convert_not_total :
    convertField "1.2.3" = .error .valueError ∧
    convert ["2024", "03", "01", "1.2.3"] = .error .valueError :=
  ⟨rfl, rfl⟩

/-! ### Window selector (KPIForecast.graph, kpiforecast.py lines 48-51) -/

/-- Record as windowed by KPIForecast.graph: the timestamp d[0] (an
instant, encoded as an integer) and the rest of the record abstracted as
one payload value. -/
abbrev KWin := Int × Int

/-- The window comprehension of KPIForecast.graph: keep the records with
start_date < d[0] < end_date, preserving their order. -/
def select (data : List KWin) (a b : Int) : List KWin :=
  data.filter fun d => decide (a < d.1) && decide (d.1 < b)

/-- C7: select returns exactly the records with timestamp strictly between
the two bounds, as a subsequence (ascending whenever the input is
ascending), and returns the empty sequence when the window is empty. -/
theorem select_spec (s : List KWin) (a b : Int) :
    (∀ r : KWin, r ∈ select s a b ↔ r ∈ s ∧ a < r.1 ∧ r.1 < b) ∧
    (select s a b).Sublist s ∧
    (s.Pairwise (fun x y : KWin => x.1 < y.1) →
      (select s a b).Pairwise (fun x y : KWin => x.1 < y.1)) ∧
    (b ≤ a → select s a b = []) := by
  refine ⟨?_, List.filter_sublist _, ?_, ?_⟩
  · intro r
    simp [select, and_assoc]
  · intro hs
    exact List.Pairwise.sublist (List.filter_sublist _) hs
  · intro hab
    apply List.eq_nil_iff_forall_not_mem.mpr
    intro r hr
    rw [select, List.mem_filter] at hr
    have h2 := hr.2
    simp only [Bool.and_eq_true, decide_eq_true_eq] at h2
    omega

/-- Witness for C7 on a concrete ascending three-record sequence. -/
theorem select_spec_witness :
    (((2 : Int), (5 : Int)) ∈ select [(0, 1), (2, 5), (7, 9)] 1 5 ↔
      ((2 : Int), (5 : Int)) ∈ [((0 : Int), (1 : Int)), (2, 5), (7, 9)] ∧
        (1 : Int) < 2 ∧ (2 : Int) < 5) ∧
    (select [((0 : Int), (1 : Int)), (2, 5), (7, 9)] 1 5).Pairwise
      (fun x y : KWin => x.1 < y.1) ∧
    select [((0 : Int), (1 : Int)), (2, 5), (7, 9)] 5 1 = [] :=
  ⟨(select_spec _ 1 5).1 _, (select_spec _ 1 5).2.2.1 (by decide),
    (select_spec _ 5 1).2.2.2 (by decide)⟩

/-! ### JSON record normalization (KPIForecast.download, kpiforecast.py
lines 102-112) -/

/-- Timestamp parsed by datetime.strptime for the NOAA feed. -/
structure KDate where
  y : Nat
  m : Nat
  d : Nat
  hh : Nat
  mm : Nat
  ss : Nat
  deriving DecidableEq

/-- Numeric value of two digit characters. -/
def twoDigits (c1 c2 : Char) : Nat := 10 * (c1.toNat - 48) + (c2.toNat - 48)

/-- datetime.strptime with the format Y-m-d H:M:S, restricted to the
zero-padded spellings the NOAA feed emits: exactly 4-2-2 digits with the
literal separators and then 2:2:2 digits, followed by the datetime range
checks (year at least 1, month 1-12, day within the month, hour at most
23, minute and second at most 59); anything else raises ValueError. -/
def strptimeKpi (s : String) : Except PyErr KDate :=
  match s.data with
  | [y1, y2, y3, y4, '-', m1, m2, '-', d1, d2, ' ',
     h1, h2, ':', n1, n2, ':', s1, s2] =>
    if y1.isDigit && y2.isDigit && y3.isDigit && y4.isDigit && m1.isDigit &&
        m2.isDigit && d1.isDigit && d2.isDigit && h1.isDigit && h2.isDigit &&
        n1.isDigit && n2.isDigit && s1.isDigit && s2.isDigit then
      let y := digitsVal [y1, y2, y3, y4]
      let m := twoDigits m1 m2
      let d := twoDigits d1 d2
      let hh := twoDigits h1 h2
      let mm := twoDigits n1 n2
      let ss := twoDigits s1 s2
      if 1 ≤ y ∧ 1 ≤ m ∧ m ≤ 12 ∧ 1 ≤ d ∧ d ≤ daysInMonth y m ∧
          hh ≤ 23 ∧ mm ≤ 59 ∧ ss ≤ 59
      then .ok ⟨y, m, d, hh, mm, ss⟩
      else .error .valueError
    else .error .valueError
  | _ => .error .valueError

/-- Python int() on a string: optional sign then decimal digits (the
whitespace around is already absent in this feed); anything else raises
ValueError. -/
def pyInt (s : String) : Except PyErr Int :=
  match s.data with
  | '+' :: r =>
    if !r.isEmpty && r.all Char.isDigit then .ok (digitsVal r)
    else .error .valueError
  | '-' :: r =>
    if !r.isEmpty && r.all Char.isDigit then .ok (-(digitsVal r : Int))
    else .error .valueError
  | r =>
    if !r.isEmpty && r.all Char.isDigit then .ok (digitsVal r)
    else .error .valueError

/-- Record appended by KPIForecast.download: (parsed date, int(elem[1]),
*elem[2:]). -/
structure KRec where
  date : KDate
  kp : Int
  rest : List String
  deriving DecidableEq

/-- One element of the JSON payload: elem[0] is the time tag, elem[1] the
Kp value, the remainder is kept verbatim; a short element raises
IndexError. -/
def convElem (elem : List String) : Except PyErr KRec :=
  match elem with
  | d :: k :: rest =>
    match strptimeKpi d with
    | .error e => .error e
    | .ok date =>
      match pyInt k with
      | .error e => .error e
      | .ok kv => .ok ⟨date, kv, rest⟩
  | _ => .error .indexError

/-- The record loop of KPIForecast.download: convert each element in
order; an uncaught exception aborts the whole loop. -/
def convElems : List (List String) → Except PyErr (List KRec)
  | [] => .ok []
  | e :: t =>
    match convElem e with
    | .error er => .error er
    | .ok r =>
      match convElems t with
      | .error er => .error er
      | .ok rs => .ok (r :: rs)

/-- Mixed-radix key embedding the strptime-validated date components into
one natural number; on validated dates it orders exactly as the
chronological tuple does. -/
def kdateKey (d : KDate) : Nat :=
  ((((d.y * 13 + d.m) * 32 + d.d) * 24 + d.hh) * 60 + d.mm) * 60 + d.ss

/-- Order in which Python's sorted() compares the download tuples:
lexicographic on (date, kp, remaining string fields). -/
def krecLe (a b : KRec) : Prop :=
  kdateKey a.date < kdateKey b.date ∨
    (kdateKey a.date = kdateKey b.date ∧
      (a.kp < b.kp ∨ (a.kp = b.kp ∧ a.rest ≤ b.rest)))

instance : DecidableRel krecLe := fun a b => by
  unfold krecLe; exact inferInstance

/-- KPIForecast.download, parsing part: skip the header row of the JSON
payload, convert every element, and sort the result; the network call
itself is modeled separately in kpi_init. -/
def kdownload (payload : List (List String)) : Except PyErr (List KRec) :=
  match convElems (payload.drop 1) with
  | .error e => .error e
  | .ok rs => .ok (rs.insertionSort krecLe)

theorem convElems_append_error {pre : List (List String)}
    {bad : List String} {post : List (List String)} {e : PyErr}
    (hpre : ∀ x ∈ pre, ∃ r, convElem x = .ok r)
    (hbad : convElem bad = .error e) :
    convElems (pre ++ bad :: post) = .error e := by
  induction pre with
  | nil => simp [convElems, hbad]
  | cons a t ih =>
    obtain ⟨r, hr⟩ := hpre a (List.mem_cons_self a t)
    have ht := ih fun x hx => hpre x (List.mem_cons_of_mem a hx)
    simp [convElems, hr, ht]

/-- C9 counterexample: in a payload whose middle record has a malformed
date, the download aborts with ValueError; the well-formed sibling records
are not collected into any output. -/
theorem kdownload_abort_example :
    kdownload [["time_tag", "kp", "observed"],
        ["2024-01-01 00:00:00", "3", "observed"],
        ["not-a-date", "3", "estimated"],
        ["2024-01-01 03:00:00", "4", "predicted"]] = .error .valueError := rfl

/-- C9 (amended): a record whose date field fails date-pattern parsing
aborts the whole download with that error: the loop has no per-record
handler, so sibling records (already-converted ones included) are
discarded and no output is produced. -/
theorem kdownload_aborts (hdr bad : List String)
    (pre post : List (List String)) (e : PyErr)
    (hpre : ∀ x ∈ pre, ∃ r, convElem x = .ok r)
    (hbad : convElem bad = .error e) :
    kdownload (hdr :: (pre ++ bad :: post)) = .error e := by
  have h := @convElems_append_error pre bad post e hpre hbad
  simp [kdownload, h]

/-- Witness for C9: a two-good-one-bad payload aborts with ValueError. -/
theorem kdownload_aborts_witness :
    kdownload [["time_tag", "kp", "observed"],
        ["2024-02-29 12:00:00", "5", "observed"],
        ["2024-13-01 00:00:00", "2", "estimated"],
        ["2024-03-01 06:00:00", "1", "predicted"]] = .error .valueError :=
  kdownload_aborts ["time_tag", "kp", "observed"]
    ["2024-13-01 00:00:00", "2", "estimated"]
    [["2024-02-29 12:00:00", "5", "observed"]]
    [["2024-03-01 06:00:00", "1", "predicted"]] .valueError
    (by
      intro x hx
      rw [List.mem_singleton] at hx
      subst hx
      exact ⟨_, rfl⟩)
    rfl

/-! ### Refresh control flow (KPIForecast.__init__, kpiforecast.py lines
24-39, and sunfluxbot.get_alert, sunfluxbot.py lines 86-126) -/

/-- Transport-level failures of urllib.request.urlopen: URLError covers
network failures and timeouts, HTTPError (a URLError subclass) the
non-2xx statuses. -/
inductive TransportError where
  | urlError
  | httpError
  deriving DecidableEq

/-- A pickle cache file on disk: its stat timestamp (st_mtime; get_alert
reads st_atime, which this model identifies with the file's single
timestamp) and its bytes. -/
structure CFile (α : Type) where
  mtime : Int
  content : PickleBytes α
  deriving DecidableEq

/-- An exception escaping KPIForecast.__init__. -/
inductive KErr where
  | transport : TransportError → KErr
  | py : PyErr → KErr
  deriving DecidableEq

/-- KPIForecast.readcache (kpiforecast.py lines 114-122): unpickle the
cache file; FileNotFoundError and EOFError yield data = None; other
unpickling failures propagate. -/
def readcacheK (fs : Option (CFile (List KRec))) :
    Except PyErr (Option (List KRec)) :=
  match fs with
  | none => .ok none
  | some f =>
    match pickleLoad f.content with
    | .ok v => .ok (some v)
    | .error .eofError => .ok none
    | .error e => .error e

/-- The staleness test at the top of KPIForecast.__init__: the stat result
is none when the file is absent; a stale file re-raises
FileNotFoundError into the handler. -/
def kpi_stale (fs : Option (CFile (List KRec))) (now cache_time : Int) : Bool :=
  match fs with
  | none => true
  | some f => decide (now - f.mtime > cache_time)

/-- KPIForecast.__init__: when the cache is fresh, just read it (in the
finally block); when stale, download and parse (urlopen failures and parse
errors propagate, since download has no handler: the finally-block
readcache still runs but the exception escapes the constructor), write the
cache only when the parsed data is nonempty, and read back whatever file
is then present.  The result pairs the final file state with the outcome
the caller sees: the object's data on normal return, or the escaped
exception. -/
def kpi_init (fs : Option (CFile (List KRec))) (now cache_time : Int)
    (net : Except TransportError (List (List String))) :
    Option (CFile (List KRec)) × Except KErr (Option (List KRec)) :=
  if kpi_stale fs now cache_time then
    match net with
    | .error e => (fs, .error (.transport e))
    | .ok payload =>
      match kdownload payload with
      | .error pe => (fs, .error (.py pe))
      | .ok data =>
        let fs' := if data.isEmpty then fs else some ⟨now, .pickled data⟩
        (fs', (readcacheK fs').mapError KErr.py)
  else (fs, (readcacheK fs).mapError KErr.py)

/-- One record of the NOAA alerts JSON feed. -/
structure ARec where
  issue_datetime : String
  message : String
  deriving DecidableEq

/-- datetime.strptime with the alert format (date, time and fractional
seconds): the same prefix as the NOAA timestamp format, then a dot and one
to six microsecond digits (the microseconds are discarded by this model). -/
def strptimeAlert (s : String) : Except PyErr KDate :=
  match s.data.drop 19 with
  | '.' :: ds =>
    if !ds.isEmpty && ds.length ≤ 6 && ds.all Char.isDigit then
      strptimeKpi ⟨s.data.take 19⟩
    else .error .valueError
  | _ => .error .valueError

/-- sunfluxbot.download_alert (sunfluxbot.py lines 102-126): a URLError is
caught and yields None (the non-200 early return is unreachable because
urlopen raises HTTPError, a URLError subclass, on those statuses); on
success the record loop returns during its first iteration, so the result
is the first record's message (None for an empty list) after parsing that
record's issue date. -/
def download_alert (net : Except TransportError (List ARec)) :
    Except PyErr (Option String) :=
  match net with
  | .error _ => .ok none
  | .ok [] => .ok none
  | .ok (r :: _) =>
    match strptimeAlert r.issue_datetime with
    | .error e => .error e
    | .ok _ => .ok (some r.message)

/-- sunfluxbot.readcache (sunfluxbot.py lines 148-155): unpickle the alert
cache (whose stored object may itself be None); FileNotFoundError and
EOFError yield None. -/
def readcacheA (fs : Option (CFile (Option String))) :
    Except PyErr (Option String) :=
  match fs with
  | none => .ok none
  | some f =>
    match pickleLoad f.content with
    | .ok v => .ok v
    | .error .eofError => .ok none
    | .error e => .error e

/-- The staleness test of get_alert: absent file, or older than four
hours. -/
def alert_stale (fs : Option (CFile (Option String))) (now : Int) : Bool :=
  match fs with
  | none => true
  | some f => decide (now - f.mtime > 4 * 3600)

/-- sunfluxbot.get_alert (sunfluxbot.py lines 86-100): when the cache file
is fresh, read and return the pickled alert; when absent or stale,
download (a transport failure yields alert = None), write the result over
the cache file unconditionally, and return it.  The result pairs the
final file state with the outcome the caller sees. -/
def get_alert (fs : Option (CFile (Option String))) (now : Int)
    (net : Except TransportError (List ARec)) :
    Option (CFile (Option String)) × Except PyErr (Option String) :=
  if alert_stale fs now then
    match download_alert net with
    | .error e => (fs, .error e)
    | .ok alert => (some ⟨now, .pickled alert⟩, .ok alert)
  else (fs, readcacheA fs)

/-- C6 counterexample: with a stale cache file holding the pickled alert
"PRIOR", a refresh failing with a transport error makes get_alert
overwrite the cache file with a pickled None and return None: the
previously persisted bytes are not preserved and the prior alert is not
served. -/
theorem get_alert_clobbers_cache :
    get_alert (some ⟨0, .pickled (some "PRIOR")⟩) 20000 (.error .urlError)
        = (some ⟨20000, .pickled none⟩, .ok none) ∧
      some (⟨20000, .pickled none⟩ : CFile (Option String))
        ≠ some (⟨0, .pickled (some "PRIOR")⟩ : CFile (Option String)) :=
  ⟨rfl, by decide⟩

/-- C6 (amended): on a transport error during a stale-cache refresh,
KPIForecast.__init__ leaves the cache file unchanged but propagates the
error to the caller instead of serving the prior sequence, while
sunfluxbot.get_alert overwrites the previously persisted cache file with a
pickled None and returns None instead of the prior alert. -/
theorem refresh_failure_behavior
    (fsK : Option (CFile (List KRec))) (now ttl : Int) (e : TransportError)
    (fsA : Option (CFile (Option String)))
    (hK : kpi_stale fsK now ttl = true) (hA : alert_stale fsA now = true) :
    (kpi_init fsK now ttl (.error e)).1 = fsK ∧
    (kpi_init fsK now ttl (.error e)).2 = .error (.transport e) ∧
    (get_alert fsA now (.error e)).1 = some ⟨now, .pickled none⟩ ∧
    (get_alert fsA now (.error e)).2 = .ok none := by
  refine ⟨?_, ?_, ?_, ?_⟩ <;>
    simp [kpi_init, get_alert, hK, hA, download_alert]

/-- Witness for C6 at a concrete stale cache and failing refresh. -/
theorem refresh_failure_behavior_witness :
    (kpi_init (some ⟨0, .pickled []⟩) 90000 21600 (.error .urlError)).1
        = some ⟨0, .pickled []⟩ ∧
      (get_alert (some ⟨0, .pickled (some "X")⟩) 90000 (.error .urlError)).2
        = .ok none :=
  ⟨(refresh_failure_behavior (some ⟨0, .pickled []⟩) 90000 21600 .urlError
      (some ⟨0, .pickled (some "X")⟩) (by decide) (by decide)).1,
   (refresh_failure_behavior (some ⟨0, .pickled []⟩) 90000 21600 .urlError
      (some ⟨0, .pickled (some "X")⟩) (by decide) (by decide)).2.2.2⟩

end SunFlux
